import Mathlib

/-!
Verification of the rustminder core: date model, record parsing, event
derivation and selection. Definitions are shallow embeddings of the Rust
source (src/date/mod.rs, src/event/...). Machine integers are modelled as
Nat (u32 fields) and Int (i32 year); text is modelled as lists of
characters. Quote marks inside the source's static error strings are
dropped (cosmetic only). The ambient wall-clock date, sampled by the
source via Fixed::now(), is threaded explicitly as a `now` parameter.
-/

namespace Rustminder

abbrev Error := String

/-- Text is modelled as a list of characters. -/
abbrev Str := List Char

/-- Shorthand turning a string literal into the character-list model. -/
def str (s : String) : Str := s.toList

/-- ASCII whitespace, modelling the characters stripped by str::trim. -/
def isWs (c : Char) : Bool := c = ' ' || c = '\t' || c = '\n' || c = '\r'

/-- Strip leading and trailing whitespace, modelling str::trim. -/
def trim (cs : Str) : Str :=
  ((cs.dropWhile isWs).reverse.dropWhile isWs).reverse

/-- Split on a separator character, keeping empty pieces, modelling
str::split(sep) which always yields at least one piece. -/
def split (sep : Char) : Str → List Str
  | [] => [[]]
  | c :: cs =>
    if c = sep then [] :: split sep cs
    else
      match split sep cs with
      | [] => [[c]]
      | p :: ps => (c :: p) :: ps

/-! ### Decimal parsing and rendering (str::parse and Display) -/

def isDigitC (c : Char) : Bool := 48 ≤ c.toNat && c.toNat ≤ 57

/-- Accumulate decimal digits left to right; any non-digit fails. -/
def parseDigitsAux : Str → Nat → Option Nat
  | [], v => some v
  | c :: cs, v =>
    if isDigitC c then parseDigitsAux cs (v * 10 + (c.toNat - 48))
    else none

/-- At least one digit, all digits. -/
def parseNatDigits : Str → Option Nat
  | [] => none
  | cs => parseDigitsAux cs 0

/-- Drop one optional leading plus sign. -/
def stripPlus : Str → Str
  | [] => []
  | c :: rest => if c = '+' then rest else c :: rest

/-- Modelling `str::parse::<u32>`: optional leading plus, digits,
result within the u32 range. -/
def parseU32 (cs : Str) : Option Nat :=
  match parseNatDigits (stripPlus cs) with
  | some n => if n < 4294967296 then some n else none
  | none => none

/-- Modelling `str::parse::<i32>`: optional sign, digits, result within
the i32 range. -/
def parseI32 (cs : Str) : Option Int :=
  match cs with
  | [] => none
  | c :: rest =>
    if c = '-' then
      match parseNatDigits rest with
      | some n => if n ≤ 2147483648 then some (-(n : Int)) else none
      | none => none
    else if c = '+' then
      match parseNatDigits rest with
      | some n => if n ≤ 2147483647 then some (n : Int) else none
      | none => none
    else
      match parseNatDigits (c :: rest) with
      | some n => if n ≤ 2147483647 then some (n : Int) else none
      | none => none

/-- The decimal digit character (only ever applied to 0..9). -/
def digitChar (n : Nat) : Char :=
  match n with
  | 0 => '0' | 1 => '1' | 2 => '2' | 3 => '3' | 4 => '4'
  | 5 => '5' | 6 => '6' | 7 => '7' | 8 => '8' | _ => '9'

/-- Decimal rendering with explicit fuel (fuel bounds the digit count;
`renderNat` supplies enough). -/
def renderNatAux : Nat → Nat → Str → Str
  | 0, _, acc => acc
  | fuel + 1, n, acc =>
    if n < 10 then digitChar n :: acc
    else renderNatAux fuel (n / 10) (digitChar (n % 10) :: acc)

/-- Decimal rendering of a Nat, as Rust's `{}` for unsigned integers. -/
def renderNat (n : Nat) : Str := renderNatAux (n + 1) n []

/-- Decimal rendering of an Int, as Rust's `{}` for i32. -/
def renderInt (i : Int) : Str :=
  if i < 0 then '-' :: renderNat i.natAbs else renderNat i.natAbs

/-- Numeric value of the rendered digits, mirroring `renderNatAux`;
used to relate rendering and parsing. -/
def padVal : Nat → Nat → Nat → Nat
  | 0, v, _ => v
  | fuel + 1, v, n =>
    if n < 10 then v * 10 + n
    else padVal fuel v (n / 10) * 10 + n % 10

/-- Left-pad with zeroes to the given width, as Rust's `{:0w}`. -/
def padZeroes (w : Nat) (cs : Str) : Str :=
  List.replicate (w - cs.length) '0' ++ cs

/-- Sign-aware zero padding, as Rust's `{:0w}` on signed integers. -/
def padIntW (w : Nat) (i : Int) : Str :=
  if i < 0 then '-' :: padZeroes (w - 1) (renderNat i.natAbs)
  else padZeroes w (renderNat i.natAbs)

/-! ## Date model (src/date/mod.rs) -/

/-- A yearless day/month pair. Field order (month first) matches the Rust
struct, so the derived lexicographic ordering agrees. -/
structure Recurring where
  month : Nat
  day : Nat
deriving DecidableEq, Repr

/-- A year-bound calendar date. -/
structure Fixed where
  year : Int
  date : Recurring
deriving DecidableEq, Repr

inductive AnyDate where
  | Recurring (r : Recurring)
  | Fixed (f : Fixed)
deriving DecidableEq, Repr

/-- Derived lexicographic comparison on (month, day), as in the Rust
`derive(Ord)` on Recurring. -/
def Recurring.cmp (a b : Recurring) : Ordering :=
  if a.month < b.month then .lt
  else if b.month < a.month then .gt
  else if a.day < b.day then .lt
  else if b.day < a.day then .gt
  else .eq

/-- Derived lexicographic comparison on (year, month, day). -/
def Fixed.cmp (a b : Fixed) : Ordering :=
  if a.year < b.year then .lt
  else if b.year < a.year then .gt
  else Recurring.cmp a.date b.date

instance : LT Fixed := ⟨fun a b => Fixed.cmp a b = .lt⟩
instance : LE Fixed := ⟨fun a b => Fixed.cmp a b ≠ .gt⟩

instance (a b : Fixed) : Decidable (a < b) :=
  inferInstanceAs (Decidable (Fixed.cmp a b = .lt))
instance (a b : Fixed) : Decidable (a ≤ b) :=
  inferInstanceAs (Decidable (Fixed.cmp a b ≠ .gt))

/-- Gregorian leap-year test, translated from `is_leap`. The Rust `%` on
i32 and Lean's Int.emod agree on equality to zero. -/
def is_leap (year : Int) : Bool :=
  if year % 400 = 0 then true
  else if year % 100 = 0 then false
  else if year % 4 = 0 then true
  else false

/-- Month-length table, translated from `last_day` (the wildcard arm of
the Rust match also yields 31). -/
def last_day (month : Nat) (year : Int) : Nat :=
  if month = 2 then (if is_leap year then 29 else 28)
  else if month = 4 ∨ month = 6 ∨ month = 9 ∨ month = 11 then 30
  else 31

/-- A real calendar date: month 1..=12, day 1..=month length. -/
def Fixed.valid (f : Fixed) : Prop :=
  1 ≤ f.date.month ∧ f.date.month ≤ 12 ∧
  1 ≤ f.date.day ∧ f.date.day ≤ last_day f.date.month f.year

instance (f : Fixed) : Decidable f.valid := by
  unfold Fixed.valid; infer_instance

/-- The calendar day immediately following, translated from
`Fixed::next`: increment the day; roll past month-end to day 1 of the
next month; roll past month 12 to January 1 of the next year. The Rust
code performs the month>12 check after the day rollover, hence the two
branches. -/
def Fixed.next (self : Fixed) : Fixed :=
  if self.date.day + 1 > last_day self.date.month self.year then
    (if self.date.month + 1 > 12 then ⟨self.year + 1, ⟨1, 1⟩⟩
     else ⟨self.year, ⟨self.date.month + 1, 1⟩⟩)
  else
    (if self.date.month > 12 then ⟨self.year + 1, ⟨1, 1⟩⟩
     else ⟨self.year, ⟨self.date.month, self.date.day + 1⟩⟩)

/-- The day count from self to target, translated from `Fixed::to`:
repeatedly step `next` while strictly below the target. -/
def Fixed.to (self target : Fixed) : Nat :=
  if h : self < target then Fixed.to self.next target + 1 else 0
termination_by
  (target.year + 1 - self.year).toNat * 510 +
    (14 - self.date.month) * 34 + (33 - self.date.day)
decreasing_by
  have hy : self.year ≤ target.year := by
    have h2 : Fixed.cmp self target = .lt := h
    unfold Fixed.cmp Recurring.cmp at h2
    split_ifs at h2 <;> omega
  have h31 : last_day self.date.month self.year ≤ 31 := by
    unfold last_day; split_ifs <;> omega
  unfold Fixed.next
  split_ifs <;> dsimp <;> omega

/-- `Fixed::from(recurring)` adopts the wall-clock year; `now` is the
explicitly threaded clock sample. -/
def Fixed.fromRecurring (r : Recurring) (now : Fixed) : Fixed :=
  ⟨now.year, r⟩

/-- Translated from `Fixed::next_match`: reinterpret the month/day at the
current year, bump the year if strictly in the past, and map 29/02 to
28/02 when the chosen year is not leap. Both wall-clock samples of the
source are the same threaded `now`. -/
def Fixed.next_match (self now : Fixed) : Fixed :=
  let n1 : Fixed := ⟨now.year, self.date⟩
  let n2 : Fixed := if n1 < now then ⟨n1.year + 1, n1.date⟩ else n1
  if n2.date = (⟨2, 29⟩ : Recurring) ∧ is_leap n2.year = false then
    ⟨n2.year, ⟨2, 28⟩⟩
  else n2

/-- Translated from `Fixed::year_diff`. -/
def Fixed.year_diff (self target : Fixed) : Int :=
  target.year - self.year

/-! ### Date parsing (TryFrom impls) and display -/

/-- Translated from `TryFrom<&str> for Recurring`: exactly two
comma-separated slots, in the order day then month; the month slot is
parsed first, each slot trimmed. -/
def recurring_try_from (value : Str) : Except Error Recurring :=
  match split ',' value with
  | [] => .error "missing day slot"
  | [_] => .error "missing month slot"
  | [day, month] =>
    match parseU32 (trim month) with
    | none => .error "failed to parse month"
    | some m =>
      match parseU32 (trim day) with
      | none => .error "failed to parse day"
      | some d => .ok ⟨m, d⟩
  | _ => .error "extra comma found"

/-- Translated from `TryFrom<&str> for Fixed`: the text before the second
comma is parsed as a Recurring, the third slot as the signed year; a
missing comma or an extra slot is an error. -/
def fixed_try_from (value : Str) : Except Error Fixed :=
  match split ',' value with
  | [] => .error "missing first separator"
  | [_] => .error "missing first separator"
  | [_, _] => .error "missing second separator"
  | [day, month, year] =>
    match recurring_try_from (day ++ [','] ++ month) with
    | .error e => .error e
    | .ok date =>
      match parseI32 (trim year) with
      | none => .error "failed to parse year"
      | some y => .ok ⟨y, date⟩
  | _ => .error "extra comma found"

/-- Translated from `TryFrom<&str> for AnyDate`: try Recurring first,
then Fixed. -/
def any_date_try_from (value : Str) : Except Error AnyDate :=
  match recurring_try_from value with
  | .ok r => .ok (.Recurring r)
  | .error _ =>
    match fixed_try_from value with
    | .ok f => .ok (.Fixed f)
    | .error _ => .error "no Date format matched"

/-- Display for Recurring: `"{:02}/{:02}"` with day then month. -/
def displayRecurring (r : Recurring) : Str :=
  padZeroes 2 (renderNat r.day) ++ ['/'] ++ padZeroes 2 (renderNat r.month)

/-- Display for Fixed: `"{}/{:04}"`, the recurring part then the year. -/
def displayFixed (f : Fixed) : Str :=
  displayRecurring f.date ++ ['/'] ++ padIntW 4 f.year

/-! ## Events (src/event/mod.rs and submodules) -/

inductive EventKind where
  | Birthday
  | SaintDay
  | Wedding
  | Holiday
  | Special
deriving DecidableEq, Repr

structure Event where
  kind : EventKind
  date : Fixed
  desc : Str
deriving DecidableEq, Repr

/-! ### Person (src/event/person/mod.rs) -/

structure Person where
  name : Str
  birthday : Option AnyDate
  saint_day : Option Recurring
  wedding_day : Option AnyDate
deriving DecidableEq, Repr

/-- Translated from `parse_name`: exactly three comma-separated slots
(first name, last name, nickname), each trimmed; nickname wins, else a
non-empty first name is required, optionally followed by the last name. -/
def parse_name (value : Str) : Except Error Str :=
  match split ',' value with
  | [] => .error "missing first_name slot"
  | [_] => .error "missing last_name slot"
  | [_, _] => .error "missing nickname slot"
  | [first_name, last_name, nickname] =>
    let first_name := trim first_name
    let last_name := trim last_name
    let nickname := trim nickname
    if nickname ≠ [] then .ok nickname
    else if first_name = [] then
      .error "at least first_name or nickname must be provided"
    else if last_name = [] then .ok first_name
    else .ok (first_name ++ [' '] ++ last_name)
  | _ => .error "extra comma found"

/-- Translated from `TryFrom<&str> for Person`: exactly four
semicolon-separated slots; empty optional slots mean absent. -/
def person_try_from (value : Str) : Except Error Person :=
  match split ';' value with
  | [] => .error "missing name slot"
  | [_] => .error "missing birthday slot"
  | [_, _] => .error "missing saint_day slot"
  | [_, _, _] => .error "missing wedding_day slot"
  | [name, birthday, saint_day, wedding_day] =>
    match parse_name name with
    | .error e => .error e
    | .ok name =>
      match
        (if trim birthday = [] then .ok none
         else (any_date_try_from birthday).map some : Except Error (Option AnyDate)) with
      | .error e => .error e
      | .ok birthday =>
        match
          (if trim saint_day = [] then .ok none
           else (recurring_try_from saint_day).map some :
            Except Error (Option Recurring)) with
        | .error e => .error e
        | .ok saint_day =>
          match
            (if trim wedding_day = [] then .ok none
             else (any_date_try_from wedding_day).map some :
              Except Error (Option AnyDate)) with
          | .error e => .error e
          | .ok wedding_day => .ok ⟨name, birthday, saint_day, wedding_day⟩
  | _ => .error "extra semicolon found"

/-- Translated from `get_next_and_diff`. -/
def get_next_and_diff (d : AnyDate) (now : Fixed) : Fixed × Option Int :=
  match d with
  | .Recurring r => ((Fixed.fromRecurring r now).next_match now, none)
  | .Fixed f => (f.next_match now, some (f.year_diff (f.next_match now)))

/-- Translated from `IntoEvents for Person`. -/
def Person.into_events (p : Person) (now : Fixed) : List Event :=
  (match p.birthday with
   | none => []
   | some b =>
     let nd := get_next_and_diff b now
     let desc := match nd.2 with
       | none => p.name
       | some age => p.name ++ str " (age " ++ renderInt age ++ str ")"
     [⟨.Birthday, nd.1, desc⟩]) ++
  (match p.saint_day with
   | none => []
   | some s => [⟨.SaintDay, (Fixed.fromRecurring s now).next_match now, p.name⟩]) ++
  (match p.wedding_day with
   | none => []
   | some w =>
     let nd := get_next_and_diff w now
     let desc := match nd.2 with
       | none => p.name
       | some year => p.name ++ str " (year " ++ renderInt year ++ str ")"
     [⟨.Wedding, nd.1, desc⟩])

/-! ### Holiday (src/event/holiday/mod.rs) -/

inductive HolidayKind where
  | Recurring (r : Recurring)
  | Fixed (f : Fixed)
  | Span (b e : Fixed)
deriving DecidableEq, Repr

structure Holiday where
  desc : Str
  kind : HolidayKind
deriving DecidableEq, Repr

/-- Translated from `TryFrom<&str> for Holiday`: two or three
semicolon-separated slots; with an end slot both dates parse as Fixed
and are compared, without it Recurring is tried before Fixed. -/
def holiday_try_from (value : Str) : Except Error Holiday :=
  match split ';' value with
  | [] => .error "missing desc slot"
  | [_] => .error "missing begin slot"
  | [desc, begin] =>
    let desc := trim desc
    match recurring_try_from begin with
    | .ok r => .ok ⟨desc, .Recurring r⟩
    | .error _ =>
      match fixed_try_from begin with
      | .ok f => .ok ⟨desc, .Fixed f⟩
      | .error _ => .error "no Holiday format matched"
  | [desc, begin, stop] =>
    let desc := trim desc
    match fixed_try_from begin with
    | .error e => .error e
    | .ok b =>
      match fixed_try_from stop with
      | .error e => .error e
      | .ok e =>
        match Fixed.cmp b e with
        | .lt => .ok ⟨desc, .Span b e⟩
        | .eq => .ok ⟨desc, .Fixed b⟩
        | .gt => .error "begin is after end"
  | _ => .error "extra semicolon found"

/-- The Span expansion loop of `IntoEvents for Holiday`: one event per
day while `current <= end`, the countdown decremented before each
formatting. -/
def spanEvents (desc : Str) (current stop : Fixed) (remaining : Nat) :
    List Event :=
  if h : current ≤ stop then
    ⟨.Holiday, current,
      desc ++ str " (" ++ renderNat (remaining - 1) ++ str " days remaining)"⟩
      :: spanEvents desc current.next stop (remaining - 1)
  else []
termination_by
  (stop.year + 1 - current.year).toNat * 510 +
    (14 - current.date.month) * 34 + (33 - current.date.day)
decreasing_by
  have hy : current.year ≤ stop.year := by
    have h2 : Fixed.cmp current stop ≠ .gt := h
    unfold Fixed.cmp Recurring.cmp at h2
    split_ifs at h2 <;> first | omega | simp_all
  have h31 : last_day current.date.month current.year ≤ 31 := by
    unfold last_day; split_ifs <;> omega
  unfold Fixed.next
  split_ifs <;> dsimp <;> omega

/-- Translated from `IntoEvents for Holiday`. -/
def Holiday.into_events (h : Holiday) (now : Fixed) : List Event :=
  match h.kind with
  | .Recurring r =>
    [⟨.Holiday, (Fixed.fromRecurring r now).next_match now, h.desc⟩]
  | .Fixed f => [⟨.Holiday, f.next_match now, h.desc⟩]
  | .Span b e => spanEvents h.desc b e (b.to e + 1)

/-! ### Special (src/event/special/mod.rs) -/

structure Special where
  desc : Str
  date : Fixed
deriving DecidableEq, Repr

/-- Translated from `TryFrom<&str> for Special`: exactly two
semicolon-separated slots, the date parsed as Fixed. -/
def special_try_from (value : Str) : Except Error Special :=
  match split ';' value with
  | [] => .error "missing desc slot"
  | [_] => .error "missing date slot"
  | [desc, date] =>
    let desc := trim desc
    match fixed_try_from date with
    | .error e => .error e
    | .ok date => .ok ⟨desc, date⟩
  | _ => .error "extra semicolon found"

def Special.into_events (s : Special) : List Event :=
  [⟨.Special, s.date, s.desc⟩]

/-! ### Top level (src/event/mod.rs) -/

/-- Translated from `extract`: split on `=` into exactly two slots,
dispatch on the trimmed kind. -/
def extract (line : Str) (now : Fixed) : Except Error (List Event) :=
  match split '=' line with
  | [] => .error "missing event kind slot"
  | [_] => .error "missing event slot"
  | [event_kind, event] =>
    if trim event_kind = str "person" then
      (person_try_from event).map (fun p => p.into_events now)
    else if trim event_kind = str "holiday" then
      (holiday_try_from event).map (fun h => h.into_events now)
    else if trim event_kind = str "special" then
      (special_try_from event).map (fun s => s.into_events)
    else .error "no EventKind matched"
  | _ => .error "extra equal sign found"

/-- Translated from `add_from`: parse the line, then push each produced
event. The vector is returned alongside the result, modelling the
`&mut Vec` parameter. -/
def add_from (line : Str) (vec : List Event) (now : Fixed) :
    Except Error Unit × List Event :=
  match extract line now with
  | .error e => (.error e, vec)
  | .ok events => (.ok (), vec ++ events)

/-- One step of the selection loop in `get_next`: compare the incoming
event's date with the current best (the first accumulated event). -/
def selStep (next : List Event) (event : Event) : List Event :=
  match next.head? with
  | none => [event]
  | some e =>
    match Fixed.cmp event.date e.date with
    | .lt => [event]
    | .eq => next ++ [event]
    | .gt => next

/-- Translated from `get_next`: filter by kind and date >= now, then a
linear scan keeping all events tied at the running minimum date. -/
def get_next (events : List Event) (kind : EventKind) (now : Fixed) :
    List Event :=
  (events.filter fun e => decide (e.kind = kind) && decide (now ≤ e.date)).foldl
    selStep []

/-- Minimum date of an event list (none when empty). Spec-side helper
for the selection claim. -/
def minDate : List Event → Option Fixed
  | [] => none
  | e :: es =>
    some (match minDate es with
      | none => e.date
      | some m => if e.date ≤ m then e.date else m)

/-- Modelled from the spec's words for EventSelector: the subset of
events of the requested kind whose date is the minimum date among those
with date >= now, in original order; empty if none qualifies. Used as
the specification side of the refinement claim about `get_next`. -/
def get_next_spec_model (events : List Event) (kind : EventKind)
    (now : Fixed) : List Event :=
  let q := events.filter fun e => decide (e.kind = kind) && decide (now ≤ e.date)
  match minDate q with
  | none => []
  | some m => q.filter fun e => decide (e.date = m)

/-! ## Theorems -/

theorem Fixed.lt_def (a b : Fixed) : (a < b) = (Fixed.cmp a b = .lt) := rfl
theorem Fixed.le_def (a b : Fixed) : (a ≤ b) = (Fixed.cmp a b ≠ .gt) := rfl

theorem Fixed.cmp_eq_lt {a b : Fixed} : Fixed.cmp a b = .lt ↔
    (a.year < b.year ∨ (a.year = b.year ∧
      (a.date.month < b.date.month ∨
        (a.date.month = b.date.month ∧ a.date.day < b.date.day)))) := by
  unfold Fixed.cmp Recurring.cmp
  split_ifs <;> simp <;> omega

theorem Fixed.cmp_eq_gt {a b : Fixed} : Fixed.cmp a b = .gt ↔
    (b.year < a.year ∨ (b.year = a.year ∧
      (b.date.month < a.date.month ∨
        (b.date.month = a.date.month ∧ b.date.day < a.date.day)))) := by
  unfold Fixed.cmp Recurring.cmp
  split_ifs <;> simp <;> omega

theorem Fixed.cmp_eq_eq {a b : Fixed} : Fixed.cmp a b = .eq ↔ a = b := by
  obtain ⟨ya, ma, da⟩ := a
  obtain ⟨yb, mb, db⟩ := b
  unfold Fixed.cmp Recurring.cmp
  dsimp only
  split_ifs <;> simp [Fixed.mk.injEq, Recurring.mk.injEq] <;> omega

theorem Fixed.lt_iff {a b : Fixed} : a < b ↔
    (a.year < b.year ∨ (a.year = b.year ∧
      (a.date.month < b.date.month ∨
        (a.date.month = b.date.month ∧ a.date.day < b.date.day)))) := by
  rw [show (a < b) = (Fixed.cmp a b = .lt) from rfl]; exact Fixed.cmp_eq_lt

theorem Fixed.le_iff {a b : Fixed} : a ≤ b ↔
    (a.year < b.year ∨ (a.year = b.year ∧
      (a.date.month < b.date.month ∨
        (a.date.month = b.date.month ∧ a.date.day ≤ b.date.day)))) := by
  rw [show (a ≤ b) = (Fixed.cmp a b ≠ .gt) from rfl, Ne, Fixed.cmp_eq_gt]
  constructor
  · intro h; by_contra hc; push_neg at hc; apply h; omega
  · intro h hc; omega

theorem Fixed.eq_of_le_of_not_lt {a b : Fixed} (h1 : a ≤ b) (h2 : ¬ a < b) :
    a = b := by
  rw [Fixed.le_iff] at h1
  rw [Fixed.lt_iff] at h2
  rw [← Fixed.cmp_eq_eq]
  unfold Fixed.cmp Recurring.cmp
  split_ifs <;> first | rfl | omega

theorem last_day_le (month : Nat) (year : Int) : last_day month year ≤ 31 := by
  unfold last_day; split_ifs <;> omega

theorem le_last_day (month : Nat) (year : Int) : 28 ≤ last_day month year := by
  unfold last_day; split_ifs <;> omega

theorem Fixed.lt_next (f : Fixed) : f < f.next := by
  unfold Fixed.next
  split_ifs <;> (rw [Fixed.lt_iff]; dsimp; omega)

theorem Fixed.lt_year_le {a b : Fixed} (h : a < b) : a.year ≤ b.year := by
  rw [Fixed.lt_iff] at h; omega

theorem Fixed.le_year_le {a b : Fixed} (h : a ≤ b) : a.year ≤ b.year := by
  rw [Fixed.le_iff] at h; omega

theorem Fixed.next_valid {f : Fixed} (h : f.valid) : f.next.valid := by
  obtain ⟨y, m, d⟩ := f
  unfold Fixed.valid at h ⊢
  unfold Fixed.next
  dsimp only at h ⊢
  have h1 := le_last_day (m + 1) y
  have h2 := le_last_day 1 (y + 1)
  have h3 := le_last_day m y
  split_ifs <;> dsimp <;> omega

/-- `next` is the immediate successor among valid dates: no valid date
lies strictly between a valid date and its `next`. -/
theorem Fixed.next_le_of_lt {a b : Fixed} (ha : a.valid) (hb : b.valid)
    (hab : a < b) : a.next ≤ b := by
  obtain ⟨ya, ma, da⟩ := a
  obtain ⟨yb, mb, db⟩ := b
  rw [Fixed.lt_iff] at hab
  unfold Fixed.valid at ha hb
  unfold Fixed.next
  dsimp only at ha hb hab ⊢
  rcases hab with hy | ⟨hy, hm | ⟨hm, hd⟩⟩
  · split_ifs <;> (rw [Fixed.le_iff]; dsimp; omega)
  · subst hy
    split_ifs <;> (rw [Fixed.le_iff]; dsimp; omega)
  · subst hy; subst hm
    have h3 := last_day_le ma ya
    split_ifs <;> (rw [Fixed.le_iff]; dsimp; omega)

theorem Fixed.to_zero_iff {s t : Fixed} : s.to t = 0 ↔ ¬ s < t := by
  rw [Fixed.to]
  split_ifs with h <;> simp [h]

theorem Fixed.to_succ {s t : Fixed} (h : s < t) :
    s.to t = s.next.to t + 1 := by
  rw [Fixed.to]; rw [dif_pos h]

theorem last_day_feb {y : Int} (h : is_leap y = false) : last_day 2 y = 28 := by
  unfold last_day; simp [h]

theorem Fixed.lt_irrefl (a : Fixed) : ¬ a < a := by
  rw [Fixed.lt_iff]; omega

theorem Fixed.ne_of_lt {a b : Fixed} (h : a < b) : a ≠ b := by
  intro heq
  subst heq
  exact Fixed.lt_irrefl a h

/-! ### C3: next is the immediate calendar successor -/

/-- C3: for every valid calendar date, `next` yields a valid date, is the
immediate successor (strictly later, and no valid date lies in between),
follows the rollover rules at month-end and year-end with the
leap-year-aware month lengths, the leap rule is 400- or (4-and-not-100)-
divisibility, and the two specified February examples hold. -/
theorem next_correct (f : Fixed) (h : f.valid) :
    f.next.valid ∧ f < f.next ∧
    (∀ g : Fixed, g.valid → f < g → f.next ≤ g) ∧
    f.next = (if f.date.day + 1 ≤ last_day f.date.month f.year then
                ⟨f.year, ⟨f.date.month, f.date.day + 1⟩⟩
              else if f.date.month = 12 then ⟨f.year + 1, ⟨1, 1⟩⟩
              else ⟨f.year, ⟨f.date.month + 1, 1⟩⟩) ∧
    (∀ y : Int, is_leap y = true ↔ (y % 400 = 0 ∨ (y % 4 = 0 ∧ y % 100 ≠ 0))) ∧
    Fixed.next ⟨1900, ⟨2, 28⟩⟩ = ⟨1900, ⟨3, 1⟩⟩ ∧
    Fixed.next ⟨2000, ⟨2, 28⟩⟩ = ⟨2000, ⟨2, 29⟩⟩ := by
  refine ⟨Fixed.next_valid h, Fixed.lt_next f,
    fun g hg hfg => Fixed.next_le_of_lt h hg hfg, ?_, ?_, by decide, by decide⟩
  · obtain ⟨y, m, d⟩ := f
    unfold Fixed.valid at h
    unfold Fixed.next
    dsimp only at h ⊢
    split_ifs <;> first | rfl | omega
  · intro y
    unfold is_leap
    split_ifs <;> simp <;> omega

/-- Witness for C3 at 28/02/1900. -/
theorem next_correct_witness :
    (⟨1900, ⟨2, 28⟩⟩ : Fixed).valid ∧
    ((⟨1900, ⟨2, 28⟩⟩ : Fixed).next.valid ∧
     (⟨1900, ⟨2, 28⟩⟩ : Fixed) < (⟨1900, ⟨2, 28⟩⟩ : Fixed).next ∧
     (∀ g : Fixed, g.valid → (⟨1900, ⟨2, 28⟩⟩ : Fixed) < g →
        (⟨1900, ⟨2, 28⟩⟩ : Fixed).next ≤ g) ∧
     (⟨1900, ⟨2, 28⟩⟩ : Fixed).next =
       (if (⟨1900, ⟨2, 28⟩⟩ : Fixed).date.day + 1 ≤
            last_day (⟨1900, ⟨2, 28⟩⟩ : Fixed).date.month
              (⟨1900, ⟨2, 28⟩⟩ : Fixed).year then
          ⟨(⟨1900, ⟨2, 28⟩⟩ : Fixed).year,
            ⟨(⟨1900, ⟨2, 28⟩⟩ : Fixed).date.month,
             (⟨1900, ⟨2, 28⟩⟩ : Fixed).date.day + 1⟩⟩
        else if (⟨1900, ⟨2, 28⟩⟩ : Fixed).date.month = 12 then
          ⟨(⟨1900, ⟨2, 28⟩⟩ : Fixed).year + 1, ⟨1, 1⟩⟩
        else
          ⟨(⟨1900, ⟨2, 28⟩⟩ : Fixed).year,
            ⟨(⟨1900, ⟨2, 28⟩⟩ : Fixed).date.month + 1, 1⟩⟩) ∧
     (∀ y : Int, is_leap y = true ↔
        (y % 400 = 0 ∨ (y % 4 = 0 ∧ y % 100 ≠ 0))) ∧
     Fixed.next ⟨1900, ⟨2, 28⟩⟩ = ⟨1900, ⟨3, 1⟩⟩ ∧
     Fixed.next ⟨2000, ⟨2, 28⟩⟩ = ⟨2000, ⟨2, 29⟩⟩) :=
  ⟨by decide, next_correct ⟨1900, ⟨2, 28⟩⟩ (by decide)⟩

/-! ### C9: `to` counts the next-steps exactly -/

theorem to_iterate_aux {t : Fixed} (ht : t.valid) :
    ∀ n s, s.valid → s ≤ t → s.to t = n → Fixed.next^[n] s = t := by
  intro n
  induction n with
  | zero =>
    intro s _ hle h0
    have hnlt : ¬ s < t := Fixed.to_zero_iff.mp h0
    have heq := Fixed.eq_of_le_of_not_lt hle hnlt
    simpa using heq
  | succ n ih =>
    intro s hs hle hn
    by_cases hlt : s < t
    · have hstep := Fixed.to_succ (s := s) (t := t) hlt
      have hnv := Fixed.next_valid hs
      have hnle := Fixed.next_le_of_lt hs ht hlt
      have hto : s.next.to t = n := by omega
      have := ih s.next hnv hnle hto
      rw [Function.iterate_succ_apply]
      exact this
    · exfalso
      have := Fixed.to_zero_iff.mpr hlt
      omega

theorem iterate_lt_aux {t : Fixed} :
    ∀ n s, s.valid → s.to t = n → ∀ k, k < n → Fixed.next^[k] s < t := by
  intro n
  induction n with
  | zero => intro s _ _ k hk; omega
  | succ n ih =>
    intro s hs hn k hk
    have hlt : s < t := by
      by_contra hc
      have := Fixed.to_zero_iff.mpr hc
      omega
    cases k with
    | zero => simpa using hlt
    | succ k =>
      have hstep := Fixed.to_succ (s := s) (t := t) hlt
      have hto : s.next.to t = n := by omega
      rw [Function.iterate_succ_apply]
      exact ih s.next (Fixed.next_valid hs) hto k (by omega)

/-- C9: for valid calendar dates self <= target, `to` returns exactly the
number of `next` applications needed to reach the target (0 when they are
equal), and no smaller number of applications reaches it. -/
theorem to_counts_days (s t : Fixed) (hs : s.valid) (ht : t.valid)
    (hle : s ≤ t) :
    Fixed.next^[s.to t] s = t ∧
    (s = t → s.to t = 0) ∧
    (∀ k, k < s.to t → Fixed.next^[k] s ≠ t) := by
  refine ⟨to_iterate_aux ht (s.to t) s hs hle rfl, ?_, ?_⟩
  · intro heq
    subst heq
    exact Fixed.to_zero_iff.mpr (Fixed.lt_irrefl s)
  · intro k hk
    exact Fixed.ne_of_lt (iterate_lt_aux (s.to t) s hs rfl k hk)

/-- Witness for C9 over a year-end span. -/
theorem to_counts_days_witness :
    ((⟨2023, ⟨12, 30⟩⟩ : Fixed).valid ∧ (⟨2024, ⟨1, 2⟩⟩ : Fixed).valid ∧
     (⟨2023, ⟨12, 30⟩⟩ : Fixed) ≤ ⟨2024, ⟨1, 2⟩⟩) ∧
    (Fixed.next^[Fixed.to ⟨2023, ⟨12, 30⟩⟩ ⟨2024, ⟨1, 2⟩⟩]
        (⟨2023, ⟨12, 30⟩⟩ : Fixed) = ⟨2024, ⟨1, 2⟩⟩ ∧
     ((⟨2023, ⟨12, 30⟩⟩ : Fixed) = ⟨2024, ⟨1, 2⟩⟩ →
        Fixed.to ⟨2023, ⟨12, 30⟩⟩ ⟨2024, ⟨1, 2⟩⟩ = 0) ∧
     (∀ k, k < Fixed.to ⟨2023, ⟨12, 30⟩⟩ ⟨2024, ⟨1, 2⟩⟩ →
        Fixed.next^[k] (⟨2023, ⟨12, 30⟩⟩ : Fixed) ≠ ⟨2024, ⟨1, 2⟩⟩)) :=
  ⟨⟨by decide, by decide, by decide⟩,
   to_counts_days ⟨2023, ⟨12, 30⟩⟩ ⟨2024, ⟨1, 2⟩⟩ (by decide) (by decide)
     (by decide)⟩

/-! ### C2: next_match lands in the coming year window -/

/-- C2: `next_match` reinterprets the month/day at now's year, advances
one year when that lies strictly before now, and substitutes 28/02 for
29/02 in non-leap years: the result keeps the original month/day except
for that substitution, lies in the half-open window [now, now + 1 year),
and is never February 29 of a non-leap year. `now` is a real (valid)
wall-clock date. -/
theorem next_match_correct (f now : Fixed) (hnow : now.valid) :
    now ≤ f.next_match now ∧
    f.next_match now < ⟨now.year + 1, now.date⟩ ∧
    ((f.next_match now).date = (⟨2, 29⟩ : Recurring) →
      is_leap (f.next_match now).year = true) ∧
    ((f.next_match now).date = f.date ∨
      (f.date = (⟨2, 29⟩ : Recurring) ∧
       (f.next_match now).date = (⟨2, 28⟩ : Recurring) ∧
       is_leap (f.next_match now).year = false)) := by
  obtain ⟨fy, fm, fd⟩ := f
  obtain ⟨Y, M, D⟩ := now
  unfold Fixed.valid at hnow
  dsimp only at hnow
  unfold Fixed.next_match
  dsimp only
  split_ifs with hq hp hp
  · -- year bump, February fix
    obtain ⟨hpd, hpl⟩ := hp
    rw [Recurring.mk.injEq] at hpd
    obtain ⟨rfl, rfl⟩ := hpd
    rw [Fixed.lt_iff] at hq
    dsimp only at hq
    refine ⟨?_, ?_, ?_, Or.inr ⟨rfl, rfl, hpl⟩⟩
    · rw [Fixed.le_iff]; dsimp only; omega
    · rw [Fixed.lt_iff]; dsimp only; omega
    · intro habs
      rw [Recurring.mk.injEq] at habs
      omega
  · -- year bump, no fix
    rw [Fixed.lt_iff] at hq
    dsimp only at hq
    refine ⟨?_, ?_, ?_, Or.inl rfl⟩
    · rw [Fixed.le_iff]; dsimp only; omega
    · rw [Fixed.lt_iff]; dsimp only; omega
    · intro habs
      dsimp only at habs
      simp only [habs, true_and] at hp
      simpa using hp
  · -- no bump, February fix at the current year
    obtain ⟨hpd, hpl⟩ := hp
    rw [Recurring.mk.injEq] at hpd
    obtain ⟨rfl, rfl⟩ := hpd
    rw [Fixed.lt_iff] at hq
    dsimp only at hq
    have h28 : last_day 2 Y = 28 := last_day_feb hpl
    refine ⟨?_, ?_, ?_, Or.inr ⟨rfl, rfl, hpl⟩⟩
    · rw [Fixed.le_iff]; dsimp only
      by_cases hM : M = 2
      · subst hM; rw [h28] at hnow; omega
      · omega
    · rw [Fixed.lt_iff]; dsimp only; omega
    · intro habs
      rw [Recurring.mk.injEq] at habs
      omega
  · -- no bump, no fix
    rw [Fixed.lt_iff] at hq
    dsimp only at hq
    refine ⟨?_, ?_, ?_, Or.inl rfl⟩
    · rw [Fixed.le_iff]; dsimp only; omega
    · rw [Fixed.lt_iff]; dsimp only; omega
    · intro habs
      dsimp only at habs
      simp only [habs, true_and] at hp
      simpa using hp

/-- Witness for C2 at a concrete leap-day date and clock. -/
theorem next_match_correct_witness :
    (⟨2025, ⟨1, 10⟩⟩ : Fixed).valid ∧
    ((⟨2025, ⟨1, 10⟩⟩ : Fixed) ≤
        Fixed.next_match ⟨2020, ⟨2, 29⟩⟩ ⟨2025, ⟨1, 10⟩⟩ ∧
     Fixed.next_match ⟨2020, ⟨2, 29⟩⟩ ⟨2025, ⟨1, 10⟩⟩ <
        ⟨(⟨2025, ⟨1, 10⟩⟩ : Fixed).year + 1, (⟨2025, ⟨1, 10⟩⟩ : Fixed).date⟩ ∧
     ((Fixed.next_match ⟨2020, ⟨2, 29⟩⟩ ⟨2025, ⟨1, 10⟩⟩).date =
          (⟨2, 29⟩ : Recurring) →
        is_leap (Fixed.next_match ⟨2020, ⟨2, 29⟩⟩ ⟨2025, ⟨1, 10⟩⟩).year =
          true) ∧
     ((Fixed.next_match ⟨2020, ⟨2, 29⟩⟩ ⟨2025, ⟨1, 10⟩⟩).date =
          (⟨2020, ⟨2, 29⟩⟩ : Fixed).date ∨
       ((⟨2020, ⟨2, 29⟩⟩ : Fixed).date = (⟨2, 29⟩ : Recurring) ∧
        (Fixed.next_match ⟨2020, ⟨2, 29⟩⟩ ⟨2025, ⟨1, 10⟩⟩).date =
          (⟨2, 28⟩ : Recurring) ∧
        is_leap (Fixed.next_match ⟨2020, ⟨2, 29⟩⟩ ⟨2025, ⟨1, 10⟩⟩).year =
          false))) :=
  ⟨by decide, next_match_correct ⟨2020, ⟨2, 29⟩⟩ ⟨2025, ⟨1, 10⟩⟩ (by decide)⟩

/-! ### C4: span expansion -/

theorem Fixed.le_refl (a : Fixed) : a ≤ a := by
  rw [Fixed.le_iff]; omega

theorem Fixed.le_of_lt {a b : Fixed} (h : a < b) : a ≤ b := by
  rw [Fixed.lt_iff] at h; rw [Fixed.le_iff]; omega

theorem Fixed.not_le_of_lt {a b : Fixed} (h : a < b) : ¬ b ≤ a := by
  rw [Fixed.lt_iff] at h; rw [Fixed.le_iff]; omega

/-- The span loop emits exactly `to current stop + 1` events, one per
calendar day, the countdown decremented before each formatting. -/
theorem spanEvents_spec {stop : Fixed} (hstop : stop.valid) :
    ∀ n current, current.valid → current ≤ stop → current.to stop = n →
      ∀ desc r,
        (spanEvents desc current stop r).length = n + 1 ∧
        ∀ i, i ≤ n → (spanEvents desc current stop r)[i]? =
          some ⟨.Holiday, Fixed.next^[i] current,
            desc ++ str " (" ++ renderNat (r - 1 - i) ++
              str " days remaining)"⟩ := by
  intro n
  induction n with
  | zero =>
    intro current hcv hcle h0 desc r
    have hnlt : ¬ current < stop := Fixed.to_zero_iff.mp h0
    have heq := Fixed.eq_of_le_of_not_lt hcle hnlt
    subst heq
    rw [spanEvents, dif_pos (Fixed.le_refl current)]
    rw [spanEvents, dif_neg (Fixed.not_le_of_lt (Fixed.lt_next current))]
    refine ⟨rfl, fun i hi => ?_⟩
    have : i = 0 := by omega
    subst this
    simp
  | succ n ih =>
    intro current hcv hcle hn desc r
    have hlt : current < stop := by
      by_contra hc
      have := Fixed.to_zero_iff.mpr hc
      omega
    have hstep := Fixed.to_succ hlt
    have hnv := Fixed.next_valid hcv
    have hnle := Fixed.next_le_of_lt hcv hstop hlt
    have hto : current.next.to stop = n := by omega
    obtain ⟨ihlen, ihget⟩ := ih current.next hnv hnle hto desc (r - 1)
    rw [spanEvents, dif_pos hcle]
    refine ⟨by simp [ihlen], fun i hi => ?_⟩
    cases i with
    | zero => simp
    | succ i =>
      rw [List.getElem?_cons_succ, ihget i (by omega),
        Function.iterate_succ_apply]
      have : r - 1 - 1 - i = r - 1 - (i + 1) := by omega
      rw [this]

/-- C4: a Span holiday with begin < end (both valid) expands to exactly
`to(begin,end) + 1` events, one per calendar day from begin onward in
order, each of kind Holiday, with the countdown starting at
`to(begin,end)` and reaching 0 on the last day. -/
theorem span_into_events_correct (desc : Str) (b e now : Fixed)
    (hb : b.valid) (he : e.valid) (hlt : b < e) :
    (Holiday.into_events ⟨desc, .Span b e⟩ now).length = b.to e + 1 ∧
    ∀ i, i ≤ b.to e → (Holiday.into_events ⟨desc, .Span b e⟩ now)[i]? =
      some ⟨.Holiday, Fixed.next^[i] b,
        desc ++ str " (" ++ renderNat (b.to e - i) ++
          str " days remaining)"⟩ := by
  obtain ⟨hlen, hget⟩ :=
    spanEvents_spec he (b.to e) b hb (Fixed.le_of_lt hlt) rfl desc (b.to e + 1)
  unfold Holiday.into_events
  dsimp only
  refine ⟨hlen, fun i hi => ?_⟩
  rw [hget i hi]
  have : b.to e + 1 - 1 - i = b.to e - i := by omega
  rw [this]

/-- Witness for C4 at the specified span 1/7/2023 to 31/8/2023, together
with the evaluation to(1/7/2023, 31/8/2023) = 61, which makes the claim's
concrete figures (62 events, countdown from 61 to 0) explicit. -/
theorem span_into_events_correct_witness :
    ((⟨2023, ⟨7, 1⟩⟩ : Fixed).valid ∧ (⟨2023, ⟨8, 31⟩⟩ : Fixed).valid ∧
     (⟨2023, ⟨7, 1⟩⟩ : Fixed) < ⟨2023, ⟨8, 31⟩⟩) ∧
    Fixed.to ⟨2023, ⟨7, 1⟩⟩ ⟨2023, ⟨8, 31⟩⟩ = 61 ∧
    ((Holiday.into_events ⟨str "Summer", .Span ⟨2023, ⟨7, 1⟩⟩ ⟨2023, ⟨8, 31⟩⟩⟩
        ⟨2023, ⟨1, 1⟩⟩).length =
      Fixed.to ⟨2023, ⟨7, 1⟩⟩ ⟨2023, ⟨8, 31⟩⟩ + 1 ∧
     ∀ i, i ≤ Fixed.to ⟨2023, ⟨7, 1⟩⟩ ⟨2023, ⟨8, 31⟩⟩ →
      (Holiday.into_events ⟨str "Summer", .Span ⟨2023, ⟨7, 1⟩⟩ ⟨2023, ⟨8, 31⟩⟩⟩
        ⟨2023, ⟨1, 1⟩⟩)[i]? =
        some ⟨.Holiday, Fixed.next^[i] (⟨2023, ⟨7, 1⟩⟩ : Fixed),
          str "Summer" ++ str " (" ++
            renderNat (Fixed.to ⟨2023, ⟨7, 1⟩⟩ ⟨2023, ⟨8, 31⟩⟩ - i) ++
            str " days remaining)"⟩) :=
  ⟨⟨by decide, by decide, by decide⟩,
   by
    iterate 61 rw [Fixed.to_succ (by decide)]
    rw [Fixed.to_zero_iff.mpr (by decide)],
   span_into_events_correct (str "Summer") ⟨2023, ⟨7, 1⟩⟩ ⟨2023, ⟨8, 31⟩⟩
     ⟨2023, ⟨1, 1⟩⟩ (by decide) (by decide) (by decide)⟩

/-! ### Splitting lemmas -/

theorem split_ne_nil (sep : Char) (cs : Str) : split sep cs ≠ [] := by
  cases cs with
  | nil => simp [split]
  | cons c cs =>
    unfold split
    split_ifs
    · simp
    · cases h : split sep cs <;> simp

theorem split_no_sep {sep : Char} {cs : Str} (h : sep ∉ cs) :
    split sep cs = [cs] := by
  induction cs with
  | nil => rfl
  | cons c cs ih =>
    simp only [List.mem_cons, not_or] at h
    unfold split
    rw [if_neg (fun hc => h.1 hc.symm), ih h.2]

theorem split_append_sep {sep : Char} (xs ys : Str) (h : sep ∉ xs) :
    split sep (xs ++ sep :: ys) = xs :: split sep ys := by
  induction xs with
  | nil => simp [split]
  | cons x xs ih =>
    simp only [List.mem_cons, not_or] at h
    have hne : ¬ x = sep := fun hc => h.1 hc.symm
    simp only [List.cons_append, split, hne, if_false, List.append_eq, ih h.2]

/-! ### Digit rendering and parsing lemmas -/

theorem digitChar_isDigit (k : Nat) : isDigitC (digitChar k) = true := by
  unfold digitChar
  rcases k with _|_|_|_|_|_|_|_|_|_ <;> rfl

theorem digitChar_val {k : Nat} (h : k < 10) :
    (digitChar k).toNat - 48 = k := by
  interval_cases k <;> rfl

theorem renderNatAux_shape : ∀ fuel n acc, n < fuel →
    ∃ c cs', renderNatAux fuel n acc = c :: cs' ∧ isDigitC c = true := by
  intro fuel
  induction fuel with
  | zero => intro n acc h; omega
  | succ fuel ih =>
    intro n acc h
    unfold renderNatAux
    split_ifs with h10
    · exact ⟨digitChar n, acc, rfl, digitChar_isDigit n⟩
    · exact ih (n / 10) _ (by omega)

theorem renderNatAux_digits : ∀ fuel n acc,
    (∀ c ∈ acc, isDigitC c = true) →
    ∀ c ∈ renderNatAux fuel n acc, isDigitC c = true := by
  intro fuel
  induction fuel with
  | zero =>
    intro n acc hacc
    simpa [renderNatAux] using hacc
  | succ fuel ih =>
    intro n acc hacc c hc
    unfold renderNatAux at hc
    split_ifs at hc with h10
    · rcases List.mem_cons.mp hc with rfl | hmem
      · exact digitChar_isDigit n
      · exact hacc c hmem
    · refine ih (n / 10) _ ?_ c hc
      intro x hx
      rcases List.mem_cons.mp hx with rfl | hmem
      · exact digitChar_isDigit (n % 10)
      · exact hacc x hmem

theorem parseDigitsAux_render : ∀ fuel n acc v, n < fuel →
    parseDigitsAux (renderNatAux fuel n acc) v =
      parseDigitsAux acc (padVal fuel v n) := by
  intro fuel
  induction fuel with
  | zero => intro n acc v h; omega
  | succ fuel ih =>
    intro n acc v h
    unfold renderNatAux padVal
    split_ifs with h10
    · simp [parseDigitsAux, digitChar_isDigit n, digitChar_val h10]
    · rw [ih (n / 10) _ v (by omega)]
      simp [parseDigitsAux, digitChar_isDigit (n % 10),
        digitChar_val (Nat.mod_lt n (by omega))]

theorem padVal_zero : ∀ fuel n, n < fuel → padVal fuel 0 n = n := by
  intro fuel
  induction fuel with
  | zero => intro n h; omega
  | succ fuel ih =>
    intro n h
    unfold padVal
    split_ifs with h10
    · omega
    · rw [ih (n / 10) (by omega)]; omega

theorem parseNatDigits_render (n : Nat) :
    parseNatDigits (renderNat n) = some n := by
  obtain ⟨c, cs', hshape, hdig⟩ := renderNatAux_shape (n + 1) n [] (by omega)
  have hshape' : renderNat n = c :: cs' := hshape
  rw [hshape']
  have hstep : parseNatDigits (c :: cs') = parseDigitsAux (c :: cs') 0 := rfl
  rw [hstep, ← hshape']
  rw [show renderNat n = renderNatAux (n + 1) n [] from rfl]
  rw [parseDigitsAux_render (n + 1) n [] 0 (by omega)]
  rw [show parseDigitsAux [] (padVal (n + 1) 0 n) =
    some (padVal (n + 1) 0 n) from rfl]
  rw [padVal_zero (n + 1) n (by omega)]

theorem parseU32_render {n : Nat} (h : n < 4294967296) :
    parseU32 (renderNat n) = some n := by
  obtain ⟨c, cs', hshape, hdig⟩ := renderNatAux_shape (n + 1) n [] (by omega)
  have hshape' : renderNat n = c :: cs' := hshape
  have hstrip : stripPlus (renderNat n) = renderNat n := by
    rw [hshape']
    unfold stripPlus
    exact if_neg (fun habs => absurd (habs ▸ hdig) (by decide))
  unfold parseU32
  rw [hstrip, parseNatDigits_render n]
  exact if_pos h

theorem parseI32_render {n : Nat} (h : n ≤ 2147483647) :
    parseI32 (renderNat n) = some (n : Int) := by
  obtain ⟨c, cs', hshape, hdig⟩ := renderNatAux_shape (n + 1) n [] (by omega)
  have hshape' : renderNat n = c :: cs' := hshape
  have hminus : ¬ c = '-' := fun habs => absurd (habs ▸ hdig) (by decide)
  have hplus : ¬ c = '+' := fun habs => absurd (habs ▸ hdig) (by decide)
  rw [hshape']
  simp only [parseI32, if_neg hminus, if_neg hplus, ← hshape',
    parseNatDigits_render n]
  exact if_pos h

theorem not_ws_of_digit {c : Char} (h : isDigitC c = true) : isWs c = false := by
  cases hw : isWs c
  · rfl
  · exfalso
    unfold isWs at hw
    simp only [Bool.or_eq_true, decide_eq_true_eq] at hw
    rcases hw with ((rfl | rfl) | rfl) | rfl <;> exact absurd h (by decide)

theorem dropWhile_eq_self_of_not {p : Char → Bool} {cs : Str}
    (h : ∀ c ∈ cs, p c = false) : cs.dropWhile p = cs := by
  cases cs with
  | nil => rfl
  | cons c cs =>
    simp [List.dropWhile_cons, h c (List.mem_cons_self c cs)]

theorem trim_digits {cs : Str} (h : ∀ c ∈ cs, isDigitC c = true) :
    trim cs = cs := by
  unfold trim
  have h1 : ∀ c ∈ cs, isWs c = false := fun c hc => not_ws_of_digit (h c hc)
  rw [dropWhile_eq_self_of_not h1]
  rw [dropWhile_eq_self_of_not (fun c hc => h1 c (List.mem_reverse.mp hc))]
  exact List.reverse_reverse cs

theorem render_not_mem {c : Char} (hc : isDigitC c = false) (n : Nat) :
    c ∉ renderNat n := fun hmem =>
  absurd (renderNatAux_digits (n + 1) n [] (by simp) c hmem) (by simp [hc])

/-! ### C8: parse then display round-trips -/

/-- C8: for every valid two-slot input "d,m" (decimal renderings of u32
values), parsing as Recurring succeeds with exactly those values and the
Display output is the zero-padded "dd/mm"; likewise a three-slot "d,m,y"
parses as Fixed and displays as "dd/mm/yyyy" (zero-padded to width 4). -/
theorem parse_display_roundtrip (d m y : Nat)
    (hd : d < 4294967296) (hm : m < 4294967296) (hy : y ≤ 2147483647) :
    (recurring_try_from (renderNat d ++ [','] ++ renderNat m) = .ok ⟨m, d⟩ ∧
     displayRecurring ⟨m, d⟩ =
       padZeroes 2 (renderNat d) ++ ['/'] ++ padZeroes 2 (renderNat m)) ∧
    (fixed_try_from
        (renderNat d ++ [','] ++ renderNat m ++ [','] ++ renderNat y) =
       .ok ⟨(y : Int), ⟨m, d⟩⟩ ∧
     displayFixed ⟨(y : Int), ⟨m, d⟩⟩ =
       padZeroes 2 (renderNat d) ++ ['/'] ++ padZeroes 2 (renderNat m) ++
         ['/'] ++ padZeroes 4 (renderNat y)) := by
  have hnc : ∀ n : Nat, ',' ∉ renderNat n :=
    fun n => render_not_mem (by decide) n
  have hdig : ∀ n : Nat, ∀ c ∈ renderNat n, isDigitC c = true :=
    fun n => renderNatAux_digits (n + 1) n [] (by simp)
  have hrec : recurring_try_from (renderNat d ++ [','] ++ renderNat m) =
      .ok ⟨m, d⟩ := by
    unfold recurring_try_from
    rw [show renderNat d ++ [','] ++ renderNat m =
      renderNat d ++ ',' :: renderNat m from by simp]
    rw [split_append_sep _ _ (hnc d), split_no_sep (hnc m)]
    simp only [trim_digits (hdig m), trim_digits (hdig d),
      parseU32_render hm, parseU32_render hd]
  have hfix : fixed_try_from
      (renderNat d ++ [','] ++ renderNat m ++ [','] ++ renderNat y) =
      .ok ⟨(y : Int), ⟨m, d⟩⟩ := by
    unfold fixed_try_from
    rw [show renderNat d ++ [','] ++ renderNat m ++ [','] ++ renderNat y =
      renderNat d ++ ',' :: (renderNat m ++ ',' :: renderNat y) from by simp]
    rw [split_append_sep _ _ (hnc d), split_append_sep _ _ (hnc m),
      split_no_sep (hnc y)]
    simp only [hrec, trim_digits (hdig y), parseI32_render hy]
  refine ⟨⟨hrec, rfl⟩, hfix, ?_⟩
  unfold displayFixed padIntW
  rw [if_neg (by omega : ¬ ((y : Int) < 0))]
  simp [displayRecurring]

/-- Witness for C8 at "5,12,2023". -/
theorem parse_display_roundtrip_witness :
    ((5 : Nat) < 4294967296 ∧ (12 : Nat) < 4294967296 ∧
     (2023 : Nat) ≤ 2147483647) ∧
    ((recurring_try_from (renderNat 5 ++ [','] ++ renderNat 12) =
        .ok ⟨12, 5⟩ ∧
      displayRecurring ⟨12, 5⟩ =
        padZeroes 2 (renderNat 5) ++ ['/'] ++ padZeroes 2 (renderNat 12)) ∧
     (fixed_try_from
         (renderNat 5 ++ [','] ++ renderNat 12 ++ [','] ++ renderNat 2023) =
        .ok ⟨(2023 : Int), ⟨12, 5⟩⟩ ∧
      displayFixed ⟨(2023 : Int), ⟨12, 5⟩⟩ =
        padZeroes 2 (renderNat 5) ++ ['/'] ++ padZeroes 2 (renderNat 12) ++
          ['/'] ++ padZeroes 4 (renderNat 2023))) :=
  ⟨⟨by decide, by decide, by decide⟩,
   parse_display_roundtrip 5 12 2023 (by decide) (by decide) (by decide)⟩

/-! ### C1: the selection loop matches its specification -/

theorem Fixed.le_trans {a b c : Fixed} (h1 : a ≤ b) (h2 : b ≤ c) : a ≤ c := by
  rw [Fixed.le_iff] at h1 h2 ⊢; omega

theorem Fixed.le_of_not_le {a b : Fixed} (h : ¬ a ≤ b) : b ≤ a := by
  rw [Fixed.le_iff] at h ⊢; omega

theorem Fixed.not_lt_of_le {a b : Fixed} (h : a ≤ b) : ¬ b < a := by
  rw [Fixed.le_iff] at h; rw [Fixed.lt_iff]; omega

theorem Fixed.lt_of_lt_of_le {a b c : Fixed} (h1 : a < b) (h2 : b ≤ c) :
    a < c := by
  rw [Fixed.lt_iff] at h1 ⊢; rw [Fixed.le_iff] at h2; omega

theorem Fixed.lt_of_le_of_lt {a b c : Fixed} (h1 : a ≤ b) (h2 : b < c) :
    a < c := by
  rw [Fixed.le_iff] at h1; rw [Fixed.lt_iff] at h2 ⊢; omega

theorem Fixed.lt_of_cmp_gt {a b : Fixed} (h : Fixed.cmp a b = .gt) : b < a := by
  rw [Fixed.cmp_eq_gt] at h; rw [Fixed.lt_iff]; exact h

theorem Fixed.eq_iff {a b : Fixed} : a = b ↔
    (a.year = b.year ∧ a.date.month = b.date.month ∧
     a.date.day = b.date.day) := by
  obtain ⟨ya, ma, da⟩ := a
  obtain ⟨yb, mb, db⟩ := b
  simp [Fixed.mk.injEq, Recurring.mk.injEq, and_assoc]

theorem Fixed.lt_of_le_of_ne {a b : Fixed} (h1 : a ≤ b) (h2 : ¬ a = b) :
    a < b := by
  rw [Fixed.le_iff] at h1; rw [Fixed.eq_iff] at h2; rw [Fixed.lt_iff]; omega

theorem Fixed.lt_of_not_le {a b : Fixed} (h : ¬ a ≤ b) : b < a := by
  rw [Fixed.le_iff] at h; rw [Fixed.lt_iff]; omega

theorem minDate_eq_none {l : List Event} : minDate l = none ↔ l = [] := by
  cases l <;> simp [minDate]

theorem minDate_le {l : List Event} {m : Fixed} (h : minDate l = some m) :
    ∀ e ∈ l, m ≤ e.date := by
  induction l generalizing m with
  | nil => simp [minDate] at h
  | cons e es ih =>
    intro x hx
    unfold minDate at h
    simp only [Option.some.injEq] at h
    cases hmd : minDate es with
    | none =>
      rw [hmd] at h
      have hes : es = [] := minDate_eq_none.mp hmd
      subst hes
      rcases List.mem_cons.mp hx with rfl | hmem
      · rw [← h]; exact Fixed.le_refl _
      · simp at hmem
    | some m' =>
      rw [hmd] at h
      dsimp only at h
      rcases List.mem_cons.mp hx with rfl | hmem
      · split_ifs at h with hle
        · rw [← h]; exact Fixed.le_refl _
        · rw [← h]; exact Fixed.le_of_not_le hle
      · have hm' := ih hmd x hmem
        split_ifs at h with hle
        · rw [← h]; exact Fixed.le_trans hle hm'
        · rw [← h]; exact hm'

theorem filter_date_eq_nil {es : List Event} {mr x : Fixed}
    (hmd : minDate es = some mr) (hx : x < mr) :
    es.filter (fun e => decide (e.date = x)) = [] := by
  rw [List.filter_eq_nil_iff]
  intro a ha
  have hle := minDate_le hmd a ha
  simp only [decide_eq_true_eq]
  intro habs
  rw [habs] at hle
  exact Fixed.not_lt_of_le hle hx

theorem filter_date_cons_pos {e : Event} {es : List Event} {x : Fixed}
    (h : e.date = x) :
    (e :: es).filter (fun y => decide (y.date = x)) =
      e :: es.filter (fun y => decide (y.date = x)) := by
  simp [List.filter_cons, h]

theorem filter_date_cons_ne {e : Event} {es : List Event} {x : Fixed}
    (h : ¬ e.date = x) :
    (e :: es).filter (fun y => decide (y.date = x)) =
      es.filter (fun y => decide (y.date = x)) := by
  simp [List.filter_cons, h]

/-- Invariant of the selection loop: starting from a non-empty
accumulator whose entries all carry date m, the fold returns the tie
class of the overall minimum, in original order. -/
theorem foldl_selStep_inv :
    ∀ (l acc : List Event) (m : Fixed), acc ≠ [] →
      (∀ a ∈ acc, a.date = m) →
      l.foldl selStep acc =
        (match minDate l with
         | none => acc
         | some mr =>
           if mr < m then l.filter (fun e => decide (e.date = mr))
           else if mr = m then
             acc ++ l.filter (fun e => decide (e.date = m))
           else acc) := by
  intro l
  induction l with
  | nil =>
    intro acc m hne hall
    simp [minDate]
  | cons e es ih =>
    intro acc m hne hall
    obtain ⟨a, acc', rfl⟩ : ∃ a acc', acc = a :: acc' := by
      cases acc with
      | nil => exact absurd rfl hne
      | cons a acc' => exact ⟨_, _, rfl⟩
    have ha : a.date = m := hall a (List.mem_cons_self a acc')
    rw [List.foldl_cons]
    have hsel : selStep (a :: acc') e =
        (match Fixed.cmp e.date m with
         | .lt => [e]
         | .eq => (a :: acc') ++ [e]
         | .gt => a :: acc') := by
      rw [← ha]
      rfl
    rw [hsel]
    cases hcmp : Fixed.cmp e.date m with
    | lt =>
      have hlt : e.date < m := hcmp
      rw [ih [e] e.date (by simp) (by simp)]
      cases hmd : minDate es with
      | none =>
        have hes : es = [] := minDate_eq_none.mp hmd
        subst hes
        simp [minDate, hlt]
      | some mr =>
        simp only [minDate, hmd]
        by_cases hle : e.date ≤ mr
        · rw [if_pos hle, if_pos hlt]
          by_cases heq : mr = e.date
          · rw [heq]
            rw [if_neg (Fixed.lt_irrefl e.date), if_pos rfl,
              filter_date_cons_pos rfl]
            rfl
          · have hemr : e.date < mr := Fixed.lt_of_le_of_ne hle
              (fun h => heq h.symm)
            rw [if_neg (Fixed.not_lt_of_le hle), if_neg heq,
              filter_date_cons_pos rfl, filter_date_eq_nil hmd hemr]
        · have hmre : mr < e.date := Fixed.lt_of_not_le hle
          rw [if_neg hle, if_pos hmre,
            if_pos (Fixed.lt_of_lt_of_le hmre (Fixed.le_of_lt hlt))]
          have hne2 : ¬ e.date = mr := by
            intro h
            rw [h] at hmre
            exact Fixed.lt_irrefl mr hmre
          rw [filter_date_cons_ne hne2]
    | eq =>
      have heq0 : e.date = m := Fixed.cmp_eq_eq.mp hcmp
      have hall' : ∀ x ∈ (a :: acc') ++ [e], x.date = m := by
        intro x hx
        rcases List.mem_append.mp hx with hx | hx
        · exact hall x hx
        · rw [List.mem_singleton.mp hx, heq0]
      rw [ih ((a :: acc') ++ [e]) m (by simp) hall']
      have hnlt : ¬ e.date < m := by
        rw [heq0]; exact Fixed.lt_irrefl m
      cases hmd : minDate es with
      | none =>
        have hes : es = [] := minDate_eq_none.mp hmd
        subst hes
        simp only [minDate]
        rw [if_neg hnlt, if_pos heq0, filter_date_cons_pos heq0]
        simp
      | some mr =>
        simp only [minDate, hmd]
        by_cases hle : e.date ≤ mr
        · rw [if_pos hle, if_neg hnlt, if_pos heq0]
          by_cases heq : mr = m
          · rw [heq]
            rw [if_neg (Fixed.lt_irrefl m), if_pos rfl,
              filter_date_cons_pos heq0]
            simp
          · have hmmr : m < mr := by
              refine Fixed.lt_of_le_of_ne ?_ (fun h => heq h.symm)
              rw [← heq0]; exact hle
            rw [if_neg (Fixed.not_lt_of_le (Fixed.le_of_lt hmmr)),
              if_neg heq, filter_date_cons_pos heq0,
              filter_date_eq_nil hmd hmmr]
        · have hmrm : mr < e.date := Fixed.lt_of_not_le hle
          rw [heq0] at hmrm
          rw [if_neg hle]
          rw [if_pos hmrm]
          have hne2 : ¬ e.date = mr := by
            intro h
            rw [heq0] at h
            rw [h] at hmrm
            exact Fixed.lt_irrefl mr hmrm
          rw [filter_date_cons_ne hne2, if_pos hmrm]
    | gt =>
      have hgt : m < e.date := Fixed.lt_of_cmp_gt hcmp
      have hnem : ¬ e.date = m := by
        intro h
        rw [h] at hgt
        exact Fixed.lt_irrefl m hgt
      rw [ih (a :: acc') m hne hall]
      cases hmd : minDate es with
      | none =>
        have hes : es = [] := minDate_eq_none.mp hmd
        subst hes
        simp only [minDate]
        rw [if_neg (Fixed.not_lt_of_le (Fixed.le_of_lt hgt)), if_neg hnem]
      | some mr =>
        simp only [minDate, hmd]
        by_cases hle : e.date ≤ mr
        · rw [if_pos hle]
          have hmmr : m < mr := Fixed.lt_of_lt_of_le hgt hle
          have hnemr : ¬ mr = m := by
            intro h
            rw [h] at hmmr
            exact Fixed.lt_irrefl m hmmr
          rw [if_neg (Fixed.not_lt_of_le (Fixed.le_of_lt hgt)),
            if_neg hnem,
            if_neg (Fixed.not_lt_of_le (Fixed.le_of_lt hmmr)),
            if_neg hnemr]

        · rw [if_neg hle]
          by_cases hc1 : mr < m
          · rw [if_pos hc1, if_pos hc1]
            have hne2 : ¬ e.date = mr := by
              intro h
              rw [h] at hgt
              exact Fixed.lt_irrefl m
                (Fixed.lt_of_lt_of_le hgt (Fixed.le_of_lt hc1))
            rw [filter_date_cons_ne hne2]
          · rw [if_neg hc1, if_neg hc1]
            by_cases hc2 : mr = m
            · rw [if_pos hc2, if_pos hc2]
              rw [filter_date_cons_ne hnem]
            · rw [if_neg hc2, if_neg hc2]

/-- C1: `get_next` returns exactly the events of the target kind whose
date is the minimum among those with date >= today (today passed in once
per call), preserving original relative order among ties, and the empty
list when no event of that kind lies at or after today — it coincides
with the specification-side selection `get_next_spec_model`. -/
theorem get_next_models_spec (events : List Event) (kind : EventKind)
    (now : Fixed) :
    get_next events kind now = get_next_spec_model events kind now := by
  unfold get_next get_next_spec_model
  generalize events.filter
    (fun e => decide (e.kind = kind) && decide (now ≤ e.date)) = q
  cases q with
  | nil => simp [minDate]
  | cons e rest =>
    rw [List.foldl_cons]
    rw [show selStep [] e = [e] from rfl]
    rw [foldl_selStep_inv rest [e] e.date (by simp) (by simp)]
    cases hmd : minDate rest with
    | none =>
      have hes : rest = [] := minDate_eq_none.mp hmd
      subst hes
      simp [minDate]
    | some mr =>
      simp only [minDate, hmd]
      by_cases hle : e.date ≤ mr
      · rw [if_pos hle]
        by_cases heq : mr = e.date
        · rw [heq]
          rw [if_neg (Fixed.lt_irrefl e.date), if_pos rfl,
            filter_date_cons_pos rfl]
          rfl
        · have hemr : e.date < mr := Fixed.lt_of_le_of_ne hle
            (fun h => heq h.symm)
          rw [if_neg (Fixed.not_lt_of_le hle), if_neg heq,
            filter_date_cons_pos rfl, filter_date_eq_nil hmd hemr]
      · have hmre : mr < e.date := Fixed.lt_of_not_le hle
        rw [if_neg hle, if_pos hmre]
        have hne2 : ¬ e.date = mr := by
          intro h
          rw [h] at hmre
          exact Fixed.lt_irrefl mr hmre
        rw [filter_date_cons_ne hne2]

/-- C5: for every 3-comma-slot name input, after trimming each slot: a
non-empty nickname wins; otherwise an empty first name is an error;
otherwise an empty last name yields the first name alone; otherwise the
first and last names joined by a single space. -/
theorem parse_name_precedence (f l n : Str)
    (hf : ',' ∉ f) (hl : ',' ∉ l) (hn : ',' ∉ n) :
    parse_name (f ++ [','] ++ l ++ [','] ++ n) =
      (if trim n ≠ [] then .ok (trim n)
       else if trim f = [] then
        .error "at least first_name or nickname must be provided"
       else if trim l = [] then .ok (trim f)
       else .ok (trim f ++ [' '] ++ trim l)) := by
  unfold parse_name
  rw [show f ++ [','] ++ l ++ [','] ++ n = f ++ ',' :: (l ++ ',' :: n) by simp]
  rw [split_append_sep _ _ hf, split_append_sep _ _ hl, split_no_sep hn]

/-- Witness for C5 at a concrete input. -/
theorem parse_name_precedence_witness :
    (',' ∉ str "Richard" ∧ ',' ∉ str " SARTORI " ∧ ',' ∉ str "") ∧
    parse_name (str "Richard" ++ [','] ++ str " SARTORI " ++ [','] ++ str "") =
      (if trim (str "") ≠ [] then .ok (trim (str ""))
       else if trim (str "Richard") = [] then
        .error "at least first_name or nickname must be provided"
       else if trim (str " SARTORI ") = [] then .ok (trim (str "Richard"))
       else .ok (trim (str "Richard") ++ [' '] ++ trim (str " SARTORI "))) :=
  ⟨by decide,
   parse_name_precedence (str "Richard") (str " SARTORI ") (str "")
     (by decide) (by decide) (by decide)⟩

/-! ### C6: holiday with an end slot -/

/-- C6: when the optional end slot is present and both dates parse as
Fixed, the parse succeeds with a Span iff begin < end, succeeds with a
single Fixed holiday iff begin = end, and fails with the begin-after-end
error iff begin > end. -/
theorem holiday_end_trichotomy (desc b e : Str) (fb fe : Fixed)
    (hd : ';' ∉ desc) (hb : ';' ∉ b) (he : ';' ∉ e)
    (hpb : fixed_try_from b = .ok fb) (hpe : fixed_try_from e = .ok fe) :
    (holiday_try_from (desc ++ [';'] ++ b ++ [';'] ++ e) =
        .ok ⟨trim desc, .Span fb fe⟩ ↔ fb < fe) ∧
    (holiday_try_from (desc ++ [';'] ++ b ++ [';'] ++ e) =
        .ok ⟨trim desc, .Fixed fb⟩ ↔ fb = fe) ∧
    (holiday_try_from (desc ++ [';'] ++ b ++ [';'] ++ e) =
        .error "begin is after end" ↔ fe < fb) := by
  unfold holiday_try_from
  rw [show desc ++ [';'] ++ b ++ [';'] ++ e = desc ++ ';' :: (b ++ ';' :: e)
    by simp]
  rw [split_append_sep _ _ hd, split_append_sep _ _ hb, split_no_sep he]
  simp only [hpb, hpe]
  cases hcmp : Fixed.cmp fb fe with
  | lt =>
    have h1 : fb < fe := hcmp
    have h2 : ¬ fb = fe := by
      rw [← Fixed.cmp_eq_eq]; simp [hcmp]
    have h3 : ¬ fe < fb := by
      rw [show (fe < fb) = (Fixed.cmp fe fb = .lt) from rfl,
        Fixed.cmp_eq_lt]
      rw [Fixed.cmp_eq_lt] at hcmp
      omega
    simp [h1, h2, h3, HolidayKind.Span.injEq, HolidayKind.Fixed.injEq]
  | eq =>
    have h1 : fb = fe := Fixed.cmp_eq_eq.mp hcmp
    subst h1
    have h2 : ¬ fb < fb := by
      rw [show (fb < fb) = (Fixed.cmp fb fb = .lt) from rfl]; simp [hcmp]
    simp [h2, HolidayKind.Span.injEq, HolidayKind.Fixed.injEq]
  | gt =>
    have h1 : ¬ fb < fe := by
      rw [show (fb < fe) = (Fixed.cmp fb fe = .lt) from rfl]; simp [hcmp]
    have h2 : ¬ fb = fe := by
      rw [← Fixed.cmp_eq_eq]; simp [hcmp]
    have h3 : fe < fb := by
      rw [show (fe < fb) = (Fixed.cmp fe fb = .lt) from rfl,
        Fixed.cmp_eq_lt]
      rw [Fixed.cmp_eq_gt] at hcmp
      omega
    simp [h1, h2, h3]

/-- Witness for C6 at a concrete input. -/
theorem holiday_end_trichotomy_witness :
    (';' ∉ str "Summer" ∧ ';' ∉ str "1,7,2023" ∧ ';' ∉ str "31,8,2023" ∧
     fixed_try_from (str "1,7,2023") = .ok ⟨2023, ⟨7, 1⟩⟩ ∧
     fixed_try_from (str "31,8,2023") = .ok ⟨2023, ⟨8, 31⟩⟩) ∧
    ((holiday_try_from (str "Summer" ++ [';'] ++ str "1,7,2023" ++ [';'] ++
        str "31,8,2023") =
        .ok ⟨trim (str "Summer"), .Span ⟨2023, ⟨7, 1⟩⟩ ⟨2023, ⟨8, 31⟩⟩⟩ ↔
      (⟨2023, ⟨7, 1⟩⟩ : Fixed) < ⟨2023, ⟨8, 31⟩⟩) ∧
     (holiday_try_from (str "Summer" ++ [';'] ++ str "1,7,2023" ++ [';'] ++
        str "31,8,2023") =
        .ok ⟨trim (str "Summer"), .Fixed ⟨2023, ⟨7, 1⟩⟩⟩ ↔
      (⟨2023, ⟨7, 1⟩⟩ : Fixed) = ⟨2023, ⟨8, 31⟩⟩) ∧
     (holiday_try_from (str "Summer" ++ [';'] ++ str "1,7,2023" ++ [';'] ++
        str "31,8,2023") =
        .error "begin is after end" ↔
      (⟨2023, ⟨8, 31⟩⟩ : Fixed) < ⟨2023, ⟨7, 1⟩⟩)) :=
  ⟨⟨by decide, by decide, by decide, rfl, rfl⟩,
   holiday_end_trichotomy (str "Summer") (str "1,7,2023") (str "31,8,2023")
     ⟨2023, ⟨7, 1⟩⟩ ⟨2023, ⟨8, 31⟩⟩ (by decide) (by decide) (by decide)
     rfl rfl⟩

/-! ### C7: parsed Recurring values are not range-checked -/

/-- C7 counterexample: `"40,13"` parses successfully although month 13
and day 40 are outside 1..=12 and 1..=31 — `Recurring::try_from` does no
range validation. -/
theorem recurring_parse_unvalidated :
    recurring_try_from (str "40,13") = .ok ⟨13, 40⟩ ∧
    ¬((1 ≤ (13 : Nat) ∧ (13 : Nat) ≤ 12) ∧ (1 ≤ (40 : Nat) ∧ (40 : Nat) ≤ 31)) :=
  ⟨rfl, by decide⟩

theorem parseU32_lt {cs : Str} {n : Nat} (h : parseU32 cs = some n) :
    n < 4294967296 := by
  unfold parseU32 at h
  split at h
  · split_ifs at h with hb
    simp only [Option.some.injEq] at h
    omega
  · simp at h

/-- C7 amended: every successfully parsed Recurring has month and day in
the u32 range (below 2^32); the calendar ranges 1..=12 and 1..=31 are
not enforced by the parser. -/
theorem recurring_parse_u32_range (s : Str) (r : Recurring)
    (h : recurring_try_from s = .ok r) :
    r.month < 4294967296 ∧ r.day < 4294967296 := by
  unfold recurring_try_from at h
  split at h <;> try simp at h
  rename_i day month
  split at h <;> try simp at h
  rename_i m hm
  split at h <;> try simp at h
  rename_i d hd
  subst h
  exact ⟨parseU32_lt hm, parseU32_lt hd⟩

/-- Witness for the amended C7 at a concrete input. -/
theorem recurring_parse_u32_range_witness :
    recurring_try_from (str "31,12") = .ok ⟨12, 31⟩ ∧
    ((⟨12, 31⟩ : Recurring).month < 4294967296 ∧
     (⟨12, 31⟩ : Recurring).day < 4294967296) :=
  ⟨rfl, recurring_parse_u32_range (str "31,12") ⟨12, 31⟩ rfl⟩

/-! ### C10: a failed line never contributes events -/

/-- C10: if `add_from` returns an error, the event vector is returned
unchanged — events are appended only after the whole record has parsed
and expanded successfully. -/
theorem add_from_error_atomic (line : Str) (vec : List Event) (now : Fixed)
    (err : Error) (h : (add_from line vec now).1 = .error err) :
    (add_from line vec now).2 = vec := by
  unfold add_from at h ⊢
  cases hx : extract line now <;> simp [hx] at h ⊢

/-- Witness for C10 at a concrete failing line. -/
theorem add_from_error_atomic_witness :
    (add_from (str "garbage") [⟨.Special, ⟨2024, ⟨1, 1⟩⟩, str "kept"⟩]
        ⟨2024, ⟨1, 1⟩⟩).1 = .error "missing event slot" ∧
    (add_from (str "garbage") [⟨.Special, ⟨2024, ⟨1, 1⟩⟩, str "kept"⟩]
        ⟨2024, ⟨1, 1⟩⟩).2 = [⟨.Special, ⟨2024, ⟨1, 1⟩⟩, str "kept"⟩] :=
  ⟨rfl, add_from_error_atomic _ _ _ "missing event slot" rfl⟩

end Rustminder
